import Mathlib

/-!
Verification of the `it` command-line line editor (src/main.rs).

The file content is modelled as a `List Char` using the line terminator
character; lines are newline-stripped `List Char` values.  The model
covers the per-file pipeline of `main` from the backup step onward
(path validation and interactive stdin slurping are I/O glue outside
the claims).  Text arguments are taken as already resolved strings.
-/

namespace ItTool

/-- A single newline-stripped line of text (Rust `String` in `Vec<String>`). -/
abbrev Line := List Char

/-- Raw file content bytes, restricted to text using the terminator
character of the tool, which is the only terminator the claims involve. -/
abbrev Content := List Char

/-- Addressing failures of the clear operation (main.rs lines 220-232). -/
inductive AddressError where
  | startBeyondEnd
  | endBeyondEnd
deriving DecidableEq

instance {ε α : Type} [DecidableEq ε] [DecidableEq α] :
    DecidableEq (Except ε α) := fun a b =>
  match a, b with
  | .ok x, .ok y =>
    if h : x = y then .isTrue (by rw [h]) else .isFalse (by simp [h])
  | .error x, .error y =>
    if h : x = y then .isTrue (by rw [h]) else .isFalse (by simp [h])
  | .ok _, .error _ => .isFalse (by simp)
  | .error _, .ok _ => .isFalse (by simp)

/-- Split on the terminator character: the auxiliary total split, which keeps
a final empty segment for a trailing terminator (like Rust `str::split`). -/
def splitNL : List Char → List (List Char)
  | [] => [[]]
  | c :: cs =>
    let r := splitNL cs
    if c = '\n' then [] :: r
    else
      match r with
      | [] => [[c]]
      | l :: ls => (c :: l) :: ls

/-- Rust `content.ends_with('\n')`. -/
def endsNL (c : Content) : Bool := c.getLast? = some '\n'

/-- Rust `content.lines().map(String::from).collect::<Vec<String>>()` for
terminator-only text: empty content gives no lines, and a single trailing
terminator produces no phantom empty final line (main.rs lines 197, 211). -/
def rustLines (c : Content) : List Line :=
  if c.isEmpty then []
  else if endsNL c then (splitNL c).dropLast else splitNL c

/-- `if lines.is_empty() { lines.push(String::new()) }` (main.rs 212-214, 234-236). -/
def normalizeBuf (ls : List Line) : List Line :=
  if ls.isEmpty then [[]] else ls

/-- Loading a file's content into the line buffer (main.rs lines 205-214). -/
def loadLines (c : Content) : List Line := normalizeBuf (rustLines c)

/-- `lines.join("\n")` (main.rs lines 199, 266, 273). -/
def joinNL : List (List Char) → List Char
  | [] => []
  | [l] => l
  | l :: ls => l ++ '\n' :: joinNL ls

/-- Rust `Vec::resize(n, String::new())`: truncate to `n` or extend with
empty lines up to length `n` (main.rs lines 241, 252). -/
def rustResize (l : List Line) (n : Nat) : List Line :=
  l.take n ++ List.replicate (n - l.length) []

/-- Rust `Vec::insert(i, x)` for `i ≤ len`: shift the suffix down by one
(main.rs lines 246, 257). -/
def rustInsert (l : List Line) (i : Nat) (x : Line) : List Line :=
  l.take i ++ x :: l.drop i

/-- Insert branch of main.rs lines 239-246 (with `overwrite` false), over a
0-based target index: auto-grow when the index is past the end, then insert. -/
def insertAt (l : List Line) (i : Nat) (text : Line) : List Line :=
  rustInsert (if l.length ≤ i then rustResize l (i + 1) else l) i text

/-- Overwrite branch of main.rs lines 239-244 (with `overwrite` true), over a
0-based target index: auto-grow when the index is past the end, then replace. -/
def overwriteAt (l : List Line) (i : Nat) (text : Line) : List Line :=
  (if l.length ≤ i then rustResize l (i + 1) else l).set i text

/-- Rust `Vec::drain(s..e)` (for `s ≤ e ≤ len`): remove the half-open
0-based index range (main.rs line 233). -/
def drainRange (l : List Line) (s e : Nat) : List Line :=
  l.take s ++ l.drop e

/-- Clear branch of main.rs lines 217-236: bounds checks, drain, and
re-normalization of an emptied buffer. -/
def clearOp (l : List Line) (start : Nat) (endOpt : Option Nat) :
    Except AddressError (List Line) :=
  if l.length ≤ start - 1 then .error .startBeyondEnd
  else if l.length < endOpt.getD l.length then .error .endBeyondEnd
  else .ok (normalizeBuf (drainRange l (start - 1) (endOpt.getD l.length)))

/-- Commit-mode serialization of the final buffer (main.rs lines 273-276):
join with the terminator, then append one terminator exactly when the buffer
is non-empty and the original content did not end with a terminator. -/
def serializeCommit (lines : List Line) (content : Content) : Content :=
  joinNL lines ++ (if !lines.isEmpty && !endsNL content then ['\n'] else [])

/-- What one run of the per-file pipeline does to the outside world. -/
structure Outcome where
  /-- a `.bak` copy of the original file was made (main.rs lines 173-181) -/
  backupCreated : Bool
  /-- new content written to the target file, when a write happened -/
  written : Option Content
  /-- text printed to standard output, when anything was printed -/
  stdout : Option Content
  /-- the addressing error the run aborted with, if any -/
  error : Option AddressError
deriving DecidableEq

/-- Final write-or-display step (main.rs lines 264-277): `println!` appends
one terminator to the joined lines on standard output. -/
def writeOrDisplay (lines : List Line) (content : Content)
    (dryRun bk : Bool) : Outcome :=
  if dryRun then ⟨bk, none, some (joinNL lines ++ ['\n']), none⟩
  else ⟨bk, some (serializeCommit lines content), none, none⟩

/-- The per-file pipeline of `main` (main.rs lines 172-277): backup, the
append fast path, load, one operation, write or display.  `file` is `none`
for a nonexistent target, otherwise its raw content. -/
def processFile (lineNum : Option Nat) (ow : Bool)
    (insertText appendText : Option Line)
    (clearRange : Option (Nat × Option Nat)) (backup dryRun : Bool)
    (file : Option Content) : Outcome :=
  let bk := backup && file.isSome
  match appendText with
  | some text =>
    if dryRun then
      let content := file.getD []
      let lines := rustLines content ++ [text]
      ⟨bk, none, some (joinNL lines ++ ['\n']), none⟩
    else
      let content := file.getD []
      ⟨bk, some (content ++ text ++ ['\n']), none, none⟩
  | none =>
    let content := file.getD []
    let lines0 := loadLines content
    match clearRange with
    | some (start, endOpt) =>
      match clearOp lines0 start endOpt with
      | .error e => ⟨bk, none, none, some e⟩
      | .ok lines => writeOrDisplay lines content dryRun bk
    | none =>
      match insertText with
      | some text =>
        let idx := (lineNum.getD 1) - 1
        let lines := if ow then overwriteAt lines0 idx text
                     else insertAt lines0 idx text
        writeOrDisplay lines content dryRun bk
      | none =>
        if lineNum.isSome || ow then
          let idx := (lineNum.getD 1) - 1
          let lines := if ow then overwriteAt lines0 idx []
                       else insertAt lines0 idx []
          writeOrDisplay lines content dryRun bk
        else
          writeOrDisplay (lines0 ++ [[]]) content dryRun bk

/-- The load-push-save reference model for appending, named by the spec:
load the buffer, push the text as a new final line, save via the Writer. -/
def loadPushSaveCommit (content : Content) (text : Line) : Content :=
  serializeCommit (loadLines content ++ [text]) content

/-- Dry-run side of the load-push-save reference model: what the Writer
prints for the pushed buffer. -/
def loadPushSaveDry (content : Content) (text : Line) : Content :=
  joinNL (loadLines content ++ [text]) ++ ['\n']

/-! ### Helper lemmas about the list primitives -/

theorem rustInsert_length (l : List Line) (i : Nat) (x : Line) :
    (rustInsert l i x).length = l.length + 1 := by
  simp [rustInsert]
  omega

theorem rustInsert_getElem_self (l : List Line) (i : Nat) (x : Line)
    (h : i ≤ l.length) : (rustInsert l i x)[i]? = some x := by
  unfold rustInsert
  have hlen : (List.take i l).length = i := by
    simp [List.length_take]
    omega
  rw [List.getElem?_append_right (by rw [hlen])]
  rw [hlen]
  simp

theorem rustInsert_getElem_lt (l : List Line) (i j : Nat) (x : Line)
    (h : j < i) (hi : i ≤ l.length) :
    (rustInsert l i x)[j]? = l[j]? := by
  unfold rustInsert
  rw [List.getElem?_append_left (by simp [List.length_take]; omega)]
  rw [List.getElem?_take]
  simp [h]

theorem rustInsert_getElem_ge (l : List Line) (i j : Nat) (x : Line)
    (h : i ≤ j) (hi : i ≤ l.length) :
    (rustInsert l i x)[j + 1]? = l[j]? := by
  unfold rustInsert
  have hlen : (List.take i l).length = i := by
    simp [List.length_take]
    omega
  rw [List.getElem?_append_right (by rw [hlen]; omega)]
  rw [hlen]
  have hj : j + 1 - i = (j - i) + 1 := by omega
  rw [hj, List.getElem?_cons_succ, List.getElem?_drop]
  congr 1
  omega

theorem rustResize_length (l : List Line) (n : Nat) :
    (rustResize l n).length = n := by
  simp [rustResize]
  omega

theorem rustResize_getElem_lt (l : List Line) (n j : Nat)
    (h : j < l.length) (h2 : j < n) : (rustResize l n)[j]? = l[j]? := by
  unfold rustResize
  rw [List.getElem?_append_left (by simp [List.length_take]; omega)]
  rw [List.getElem?_take]
  simp [h2]

theorem rustResize_getElem_pad (l : List Line) (n j : Nat)
    (h : l.length ≤ j) (h2 : j < n) : (rustResize l n)[j]? = some [] := by
  unfold rustResize
  have hlen : (List.take n l).length = l.length := by
    simp [List.length_take]
    omega
  rw [List.getElem?_append_right (by rw [hlen]; omega)]
  rw [hlen, List.getElem?_replicate]
  rw [if_pos (by omega)]

theorem normalizeBuf_length_pos (ls : List Line) :
    1 ≤ (normalizeBuf ls).length := by
  unfold normalizeBuf
  split
  · simp
  · rename_i h
    have := List.isEmpty_eq_false.mp (by simpa using h)
    have := List.length_pos.mpr this
    omega

/-! ### Claim theorems -/

/-- C1: the claim says commit mode preserves the original file's
trailing-terminator presence, with Scenario A producing
`"Line 1\nNew Line\nLine 2\n"`.  The code's condition (main.rs line 274)
appends the extra terminator exactly when the original content did NOT end
with one, so Scenario A actually writes `"Line 1\nNew Line\nLine 2"` with
the historical trailing terminator dropped: the code inverts, rather than
preserves, trailing-newline presence. -/
theorem scenarioA_commit_drops_trailing_terminator :
    (processFile (some 2) false (some ("New Line".data)) none none false false
        (some ("Line 1\nLine 2\n".data))).written
      = some ("Line 1\nNew Line\nLine 2".data)
    ∧ ("Line 1\nNew Line\nLine 2".data : Content)
        ≠ "Line 1\nNew Line\nLine 2\n".data := by
  decide

/-- C2 counterexample: with `--dry-run --backup` on an existing file the
backup copy IS created (main.rs line 173 runs before the dry-run check),
refuting "no backup copy is created, even when --backup is also given". -/
theorem dry_run_backup_still_created :
    (processFile none false none (some ("X".data)) none true true
        (some ("A\n".data))).backupCreated = true
    ∧ (processFile none false none (some ("X".data)) none true true
        (some ("A\n".data))).written = none := by
  decide

/-- C2 (amended): in dry-run mode the target file is never written, the
computed result is printed to standard output whenever no addressing error
aborts the run, and the backup copy is created exactly when `--backup` is
given and the file exists — dry-run does not suppress the backup. -/
theorem dry_run_writes_nothing (lineNum : Option Nat) (ow : Bool)
    (insT apT : Option Line) (cr : Option (Nat × Option Nat))
    (backup : Bool) (file : Option Content) :
    (processFile lineNum ow insT apT cr backup true file).written = none
    ∧ ((processFile lineNum ow insT apT cr backup true file).error = none →
        (processFile lineNum ow insT apT cr backup true file).stdout.isSome)
    ∧ (processFile lineNum ow insT apT cr backup true file).backupCreated
        = (backup && file.isSome) := by
  unfold processFile writeOrDisplay
  rcases apT with _ | text
  · rcases cr with _ | ⟨start, eOpt⟩
    · rcases insT with _ | text
      · by_cases h : lineNum.isSome || ow
        · simp [h]
        · simp [h]
      · simp
    · rcases h : clearOp (loadLines (file.getD [])) start eOpt with e | lines
      · simp [h]
      · simp [h]
  · simp

/-- C2 witness at a concrete dry run. -/
theorem dry_run_writes_nothing_witness :
    (processFile none false none (some []) none true true
        (some ("A\n".data))).written = none
    ∧ (processFile none false none (some []) none true true
        (some ("A\n".data))).stdout.isSome := by
  have h := dry_run_writes_nothing none false none (some []) none true
    (some ("A\n".data))
  exact ⟨h.1, h.2.1 (by decide)⟩

/-- C3: the append fast path (main.rs lines 184-202) is claimed to be
bit-for-bit equivalent to load-push-save through the Writer.  At file
content `"A\n"` with append text `"C"` in commit mode the fast path writes
`"A\nC\n"` while load-push-save through the Writer produces `"A\nC"`
(the Writer drops the trailing terminator of a terminated file), so the
claimed equivalence fails. -/
theorem append_fast_path_not_load_push_save :
    (processFile none false none (some ("C".data)) none false false
        (some ("A\n".data))).written = some ("A\nC\n".data)
    ∧ loadPushSaveCommit ("A\n".data) ("C".data) = "A\nC".data
    ∧ ("A\nC\n".data : Content) ≠ "A\nC".data := by
  decide

/-- C9: running with no operation flags is claimed to produce the same
final file as `--append ""`.  On file content `"A\n"` in commit mode the
default path rewrites the file through the Writer as `"A\n"` while
`--append ""` takes the fast path and writes `"A\n\n"`, so the two runs
produce different files. -/
theorem default_append_empty_commit_differs :
    (processFile none false none none none false false
        (some ("A\n".data))).written = some ("A\n".data)
    ∧ (processFile none false none (some []) none false false
        (some ("A\n".data))).written = some ("A\n\n".data)
    ∧ ("A\n".data : Content) ≠ "A\n\n".data := by
  decide

/-- C4 counterexample: clearing lines 2 through 3 of a three-line buffer
removes two elements, not `end - start = 1` as the claim counts. -/
theorem clear_count_counterexample :
    clearOp [['A'], ['B'], ['C']] 2 (some 3) = .ok [['A']]
    ∧ ([['A'], ['B'], ['C']] : List Line).length
        - ([['A']] : List Line).length ≠ 3 - 2 := by
  decide

/-- C4 (amended): for `1 ≤ start ≤ end`, `start - 1 < len` and
`end ≤ len`, the clear operation removes exactly `end - start + 1`
elements (not `end - start`), namely the lines in the 0-based half-open
range `[start-1, end)`, leaves the remaining lines in their original
order, and re-normalizes an emptied buffer to one empty line. -/
theorem clear_range_removes_halfopen (l : List Line) (start e : Nat)
    (h1 : 1 ≤ start) (h2 : start ≤ e) (h3 : start - 1 < l.length)
    (h4 : e ≤ l.length) :
    clearOp l start (some e)
      = .ok (normalizeBuf (l.take (start - 1) ++ l.drop e))
    ∧ (l.take (start - 1) ++ l.drop e).length
        = l.length - (e - start + 1) := by
  constructor
  · simp only [clearOp, Option.getD_some, drainRange]
    rw [if_neg (by omega), if_neg (by omega)]
  · simp [List.length_take, List.length_drop]
    omega

/-- C4 witness: the amended statement at Scenario D's buffer. -/
theorem clear_range_removes_halfopen_witness :
    clearOp [['A'], ['B'], ['C']] 2 (some 3)
      = .ok (normalizeBuf (([['A'], ['B'], ['C']] : List Line).take 1
          ++ ([['A'], ['B'], ['C']] : List Line).drop 3))
    ∧ (([['A'], ['B'], ['C']] : List Line).take 1
          ++ ([['A'], ['B'], ['C']] : List Line).drop 3).length = 3 - (3 - 2 + 1) :=
  clear_range_removes_halfopen [['A'], ['B'], ['C']] 2 3
    (by decide) (by decide) (by decide) (by decide)

/-- C5 counterexample: inserting at 0-based index `i = len(L)` first
auto-grows the buffer (main.rs lines 240-242) and then inserts, so the
result has length `len + 2` with a padding empty line after the text,
refuting the claimed length `len + 1` at `i = len(L)`. -/
theorem insert_at_length_counterexample :
    insertAt [['A']] 1 ['B'] = [['A'], ['B'], []]
    ∧ (insertAt [['A']] 1 ['B']).length ≠ ([['A']] : List Line).length + 1 := by
  decide

/-- C5 (amended): for non-empty `L` and 0-based index `i < len(L)` (strict,
not `i ≤ len(L)`), insert yields `L.take i ++ text :: L.drop i`: length
`len + 1`, `text` at position `i`, and every other element in its original
relative order. -/
theorem insert_below_len_spec (l : List Line) (i : Nat) (text : Line)
    (_hne : l ≠ []) (h : i < l.length) :
    insertAt l i text = l.take i ++ text :: l.drop i
    ∧ (insertAt l i text).length = l.length + 1
    ∧ (insertAt l i text)[i]? = some text
    ∧ (∀ j, j < i → (insertAt l i text)[j]? = l[j]?)
    ∧ (∀ j, i ≤ j → (insertAt l i text)[j + 1]? = l[j]?) := by
  have he : ¬ (l.length ≤ i) := by omega
  have hdef : insertAt l i text = rustInsert l i text := by
    unfold insertAt
    rw [if_neg he]
  rw [hdef]
  refine ⟨rfl, rustInsert_length l i text, ?_, ?_, ?_⟩
  · exact rustInsert_getElem_self l i text (by omega)
  · intro j hj
    exact rustInsert_getElem_lt l i j text hj (by omega)
  · intro j hj
    exact rustInsert_getElem_ge l i j text hj (by omega)

/-- C5 witness: the amended statement at Scenario A's buffer. -/
theorem insert_below_len_spec_witness :
    insertAt [['a'], ['b']] 1 ['x']
      = ([['a'], ['b']] : List Line).take 1 ++ ['x'] :: ([['a'], ['b']] : List Line).drop 1
    ∧ (insertAt [['a'], ['b']] 1 ['x']).length = 3 := by
  have h := insert_below_len_spec [['a'], ['b']] 1 ['x'] (by decide) (by decide)
  exact ⟨h.1, h.2.1⟩

/-- C6: overwrite with `i < len(L)` keeps the length, replaces position
`i` with `text` and leaves every other position unchanged; with
`i ≥ len(L)` it is not an error: the buffer auto-grows to length `i + 1`,
positions below the old length keep their lines, the new positions below
`i` are empty-string padding, and `text` sits at position `i`. -/
theorem overwrite_spec (l : List Line) (i : Nat) (text : Line) :
    (i < l.length →
      overwriteAt l i text = l.set i text
      ∧ (overwriteAt l i text).length = l.length
      ∧ (overwriteAt l i text)[i]? = some text
      ∧ ∀ j, j ≠ i → (overwriteAt l i text)[j]? = l[j]?)
    ∧ (l.length ≤ i →
      (overwriteAt l i text).length = i + 1
      ∧ (overwriteAt l i text)[i]? = some text
      ∧ (∀ j, j < l.length → (overwriteAt l i text)[j]? = l[j]?)
      ∧ ∀ j, l.length ≤ j → j < i → (overwriteAt l i text)[j]? = some []) := by
  constructor
  · intro h
    have hdef : overwriteAt l i text = l.set i text := by
      unfold overwriteAt
      rw [if_neg (by omega)]
    rw [hdef]
    refine ⟨rfl, by simp, List.getElem?_set_self h, ?_⟩
    intro j hj
    exact List.getElem?_set_ne (by omega)
  · intro h
    have hdef : overwriteAt l i text = (rustResize l (i + 1)).set i text := by
      unfold overwriteAt
      rw [if_pos h]
    rw [hdef]
    have hrl : (rustResize l (i + 1)).length = i + 1 := rustResize_length l (i + 1)
    refine ⟨by simp [hrl], ?_, ?_, ?_⟩
    · exact List.getElem?_set_self (by omega)
    · intro j hj
      rw [List.getElem?_set_ne (by omega)]
      exact rustResize_getElem_lt l (i + 1) j hj (by omega)
    · intro j hj1 hj2
      rw [List.getElem?_set_ne (by omega)]
      exact rustResize_getElem_pad l (i + 1) j hj1 (by omega)

/-- C6 witness: in-range overwrite and auto-growing overwrite at concrete
buffers. -/
theorem overwrite_spec_witness :
    overwriteAt [['A'], ['B']] 0 ['X'] = ([['A'], ['B']] : List Line).set 0 ['X']
    ∧ (overwriteAt [['A'], ['B']] 3 ['X']).length = 4 := by
  refine ⟨((overwrite_spec [['A'], ['B']] 0 ['X']).1 (by decide)).1, ?_⟩
  exact ((overwrite_spec [['A'], ['B']] 3 ['X']).2 (by decide)).1

/-- C7: on the loaded buffer, clear fails with `StartBeyondEnd` exactly
when `start - 1 ≥ len`, and — once that check passes and an explicit end is
given — fails with `EndBeyondEnd` exactly when `end > len`; on either
failure the pipeline performs no write (and prints nothing), as in
Scenario F. -/
theorem clear_error_conditions (content : Content) (start : Nat)
    (eOpt : Option Nat) (lineNum : Option Nat) (ow : Bool)
    (insT : Option Line) (backup dryRun : Bool) :
    (clearOp (loadLines content) start eOpt = .error .startBeyondEnd
      ↔ (loadLines content).length ≤ start - 1)
    ∧ (∀ e, eOpt = some e → start - 1 < (loadLines content).length →
        (clearOp (loadLines content) start eOpt = .error .endBeyondEnd
          ↔ (loadLines content).length < e))
    ∧ ∀ err, clearOp (loadLines content) start eOpt = .error err →
        (processFile lineNum ow insT none (some (start, eOpt)) backup dryRun
            (some content)).written = none
        ∧ (processFile lineNum ow insT none (some (start, eOpt)) backup dryRun
            (some content)).stdout = none := by
  refine ⟨?_, ?_, ?_⟩
  · unfold clearOp
    constructor
    · intro h
      by_contra hc
      rw [if_neg (by omega)] at h
      split at h <;> simp_all
    · intro h
      rw [if_pos h]
  · intro e he hlt
    subst he
    unfold clearOp
    rw [if_neg (by omega)]
    constructor
    · intro h
      by_contra hc
      rw [Option.getD_some, if_neg (by omega)] at h
      simp_all
    · intro h
      rw [Option.getD_some, if_pos h]
  · intro err herr
    unfold processFile
    simp only [Option.getD_some]
    rw [herr]
    exact ⟨rfl, rfl⟩

/-- C7 witness: Scenario F — clearing from line 5 of the one-line file
`"A\n"` errors with `StartBeyondEnd` and nothing is written. -/
theorem clear_error_conditions_witness :
    clearOp (loadLines ("A\n".data)) 5 none = .error .startBeyondEnd
    ∧ (processFile none false none none (some (5, none)) false false
        (some ("A\n".data))).written = none := by
  have h := clear_error_conditions ("A\n".data) 5 none none false none
    false false
  have h1 : clearOp (loadLines ("A\n".data)) 5 none = .error .startBeyondEnd :=
    h.1.mpr (by decide)
  exact ⟨h1, (h.2.2 .startBeyondEnd h1).1⟩

/-- C8: the buffer invariant `len ≥ 1` holds after loading and after every
operation: load normalizes an empty or nonexistent file to one empty line,
insert and overwrite can only keep or grow the buffer, clear re-normalizes
an emptied buffer, and both append paths end with a pushed line. -/
theorem buffer_invariant (content : Content) (l : List Line) (i : Nat)
    (t : Line) (start : Nat) (eOpt : Option Nat) (m : List Line) :
    1 ≤ (loadLines content).length
    ∧ 1 ≤ (insertAt l i t).length
    ∧ 1 ≤ (overwriteAt l i t).length
    ∧ (clearOp l start eOpt = .ok m → 1 ≤ m.length)
    ∧ 1 ≤ (rustLines content ++ [t]).length
    ∧ 1 ≤ (l ++ [([] : Line)]).length := by
  refine ⟨normalizeBuf_length_pos _, ?_, ?_, ?_, by simp, by simp⟩
  · unfold insertAt
    rw [rustInsert_length]
    omega
  · unfold overwriteAt
    rw [List.length_set]
    split
    · rw [rustResize_length]
      omega
    · omega
  · intro h
    unfold clearOp at h
    split at h
    · simp_all
    · split at h
      · simp_all
      · have hm : m = normalizeBuf (drainRange l (start - 1) (eOpt.getD l.length)) := by
          simp_all
        rw [hm]
        exact normalizeBuf_length_pos _

/-- C8 witness: the invariant instantiated at a clear that empties a
one-line buffer, which re-normalizes to a single empty line. -/
theorem buffer_invariant_witness :
    1 ≤ (loadLines ("A\n".data)).length
    ∧ 1 ≤ ([[]] : List Line).length := by
  have h := buffer_invariant ("A\n".data) [['A']] 0 [] 1 (some 1) [[]]
  exact ⟨h.1, h.2.2.2.1 (by decide)⟩

/-- C10: with `--line N` (N ≥ 1) and none of the insert, append, clear or
overwrite flags, the pipeline inserts an empty line at 0-based index
`N - 1` into the loaded buffer (auto-growing first when `N - 1` is past
the end) and commits the result through the Writer: the resulting buffer
has length `max len N + 1`, holds the empty line at index `N - 1`, keeps
the lines below the insertion point, and is strictly longer than before. -/
theorem line_flag_inserts_empty_line (content : Content) (n : Nat)
    (backup : Bool) (hn : 1 ≤ n) :
    (processFile (some n) false none none none backup false (some content)).written
      = some (serializeCommit (insertAt (loadLines content) (n - 1) []) content)
    ∧ (insertAt (loadLines content) (n - 1) []).length
        = max (loadLines content).length n + 1
    ∧ (insertAt (loadLines content) (n - 1) [])[n - 1]? = some []
    ∧ (loadLines content).length < (insertAt (loadLines content) (n - 1) []).length
    ∧ ∀ j, j < n - 1 → j < (loadLines content).length →
        (insertAt (loadLines content) (n - 1) [])[j]? = (loadLines content)[j]? := by
  refine ⟨rfl, ?_, ?_, ?_, ?_⟩ <;>
    by_cases hcase : (loadLines content).length ≤ n - 1
  · have hdef : insertAt (loadLines content) (n - 1) []
        = rustInsert (rustResize (loadLines content) (n - 1 + 1)) (n - 1) [] := by
      unfold insertAt
      rw [if_pos hcase]
    rw [hdef, rustInsert_length, rustResize_length]
    omega
  · have hdef : insertAt (loadLines content) (n - 1) []
        = rustInsert (loadLines content) (n - 1) [] := by
      unfold insertAt
      rw [if_neg hcase]
    rw [hdef, rustInsert_length]
    omega
  · have hdef : insertAt (loadLines content) (n - 1) []
        = rustInsert (rustResize (loadLines content) (n - 1 + 1)) (n - 1) [] := by
      unfold insertAt
      rw [if_pos hcase]
    rw [hdef]
    exact rustInsert_getElem_self _ _ _ (by rw [rustResize_length]; omega)
  · have hdef : insertAt (loadLines content) (n - 1) []
        = rustInsert (loadLines content) (n - 1) [] := by
      unfold insertAt
      rw [if_neg hcase]
    rw [hdef]
    exact rustInsert_getElem_self _ _ _ (by omega)
  · have hdef : insertAt (loadLines content) (n - 1) []
        = rustInsert (rustResize (loadLines content) (n - 1 + 1)) (n - 1) [] := by
      unfold insertAt
      rw [if_pos hcase]
    rw [hdef, rustInsert_length, rustResize_length]
    omega
  · have hdef : insertAt (loadLines content) (n - 1) []
        = rustInsert (loadLines content) (n - 1) [] := by
      unfold insertAt
      rw [if_neg hcase]
    rw [hdef, rustInsert_length]
    omega
  · intro j hj1 hj2
    have hdef : insertAt (loadLines content) (n - 1) []
        = rustInsert (rustResize (loadLines content) (n - 1 + 1)) (n - 1) [] := by
      unfold insertAt
      rw [if_pos hcase]
    rw [hdef]
    rw [rustInsert_getElem_lt _ _ _ _ hj1 (by rw [rustResize_length]; omega)]
    exact rustResize_getElem_lt _ _ _ hj2 (by omega)
  · intro j hj1 hj2
    have hdef : insertAt (loadLines content) (n - 1) []
        = rustInsert (loadLines content) (n - 1) [] := by
      unfold insertAt
      rw [if_neg hcase]
    rw [hdef]
    exact rustInsert_getElem_lt _ _ _ _ hj1 (by omega)

/-- C10 witness: `--line 3` on the one-line file `"A\n"` auto-grows the
buffer and inserts an empty line at index 2. -/
theorem line_flag_inserts_empty_line_witness :
    (processFile (some 3) false none none none false false
        (some ("A\n".data))).written
      = some (serializeCommit (insertAt (loadLines ("A\n".data)) 2 []) ("A\n".data))
    ∧ (insertAt (loadLines ("A\n".data)) 2 []).length
        = max (loadLines ("A\n".data)).length 3 + 1 := by
  have h := line_flag_inserts_empty_line ("A\n".data) 3 false (by decide)
  exact ⟨h.1, h.2.1⟩

end ItTool
